import Mathlib

/-!
Shallow embedding of owfmodules/avrisp/flash_write.py (class FlashWrite).

Conventions of the embedding:
* A wire frame (one `spi_interface.transmit` call) is a `List Nat` of byte
  values; `Ev` records the observable session events (reset-line changes,
  transmitted frames, timed delays).  Bytes received from the target are not
  events; every `receive`/`transmit_receive` consumes the next value of an
  explicit response oracle (`resp : List Nat`).
* Python exceptions (ValueError from `bytes([x])` with `x` outside 0..255,
  IndexError, TypeError from `bytes([None])`) and exhaustion of the response
  oracle are modelled by `Option`: a raising run is `none`.
* Machine integers are `Nat` (Python ints are unbounded); the only masking in
  the source is `& 0xFFFF` before `struct.pack(">H", .)`, modelled by `% 65536`.
  The one place the source can compute a negative address
  (`_wait_poll_flash`, odd buffer offset) is modelled on `Int` with `% 65536`.
* Two layers model exceptions: the `Option`-valued stack collapses every
  exception and every oracle exhaustion into `none`, which suffices for runs
  that raise nothing; the `..P` stack at the end of the definitions refines
  it with the Python exception class (`PyErr`) and the partially transmitted
  frames, which the try/except span of `process` (claim C8) requires.
-/

set_option autoImplicit false

abbrev Frame := List Nat

/-- Observable events of a programming session. -/
inductive Ev where
  | resetLow
  | resetHigh
  | tx (f : Frame)
  | sleepMs (n : Nat)
deriving DecidableEq

/-- Busy-detection strategy selected from the device profile
(`process`, lines 257-260). -/
inductive BusyMode where
  | rdybsy
  | flashPoll
deriving DecidableEq

/-- `bytes([n])`: a single byte, ValueError outside 0..255. -/
def byteE (n : Nat) : Option Nat :=
  if n < 256 then some n else none

/-- `struct.pack(">H", n & 0xFFFF)`: two big-endian bytes. -/
def pack16 (n : Nat) : List Nat :=
  [n % 65536 / 256, n % 256]

/-- `struct.pack(">H", a & 0xFFFF)` for a possibly negative Python int `a`. -/
def pack16i (a : Int) : List Nat :=
  pack16 (a % 65536).toNat

/-- The extension byte of an extended-address-load frame `4D 00 <e> 00`,
if the frame is one. -/
def extByte (f : Frame) : Option Nat :=
  match f with
  | [a, b, e, d] => if a = 0x4D ∧ b = 0x00 ∧ d = 0x00 then some e else none
  | _ => none

/-- All extension bytes loaded by a frame list, in transmission order. -/
def extLoads (fs : List Frame) : List Nat :=
  fs.filterMap extByte

/-- The value held by the target's extended-address register after the frames
`fs` have been transmitted, starting from register content `r`
(`none` = never loaded). -/
def regAfter (r : Option Nat) (fs : List Frame) : Option Nat :=
  fs.foldl (fun acc f => match extByte f with | some e => some e | none => acc) r

/-- `erase` (lines 64-85): reset low (twice), enable memory access,
`time.sleep(0.5)`, chip erase, `time.sleep(int(erase_delay) // 1000)`
(whole seconds), reset high.  The second sleep is expressed in ms. -/
def eraseEvs (eraseDelay : Nat) : List Ev :=
  [Ev.resetLow, Ev.resetLow, Ev.tx [0xAC, 0x53, 0x00, 0x00], Ev.sleepMs 500,
   Ev.tx [0xAC, 0x80, 0x00, 0x00], Ev.sleepMs (eraseDelay / 1000 * 1000),
   Ev.resetHigh]

/-- The erase sequence as the specification words it: one reset-low, enable
memory access, 500 ms settle, chip erase, exactly `eraseDelay` ms, reset
high.  Stated from the spec for comparison with `eraseEvs`. -/
def eraseSpecEvs (eraseDelay : Nat) : List Ev :=
  [Ev.resetLow, Ev.tx [0xAC, 0x53, 0x00, 0x00], Ev.sleepMs 500,
   Ev.tx [0xAC, 0x80, 0x00, 0x00], Ev.sleepMs eraseDelay, Ev.resetHigh]

/-- The byte-load loop of `program_page` (lines 162-168): for word index `i`
(and `k` more words to go), transmit `40 00 <i> <pb[2i]>` then
`48 00 <i> <pb[2i+1]>`. -/
def loadWords (pb : List Nat) (i : Nat) : Nat → Option (List Frame)
  | 0 => some []
  | Nat.succ k =>
    match byteE i, byteE (pb.getD (2 * i) 0), byteE (pb.getD (2 * i + 1) 0),
          loadWords pb (i + 1) k with
    | some ib, some lo, some hi, some rest =>
      some ([0x40, 0x00, ib, lo] :: [0x48, 0x00, ib, hi] :: rest)
    | _, _, _, _ => none

/-- The byte-load frame sequence as the claim words it: ascending word
indices, low byte then high byte of each word. -/
def specWordLoads (pb : List Nat) (i : Nat) : Nat → List Frame
  | 0 => []
  | Nat.succ k =>
    [0x40, 0x00, i, pb.getD (2 * i) 0] :: [0x48, 0x00, i, pb.getD (2 * i + 1) 0]
      :: specWordLoads pb (i + 1) k

/-- Conditional extended-address reload (`program_page` lines 170-173 and the
identical logic in `verify` lines 100-102): transmit `4D 00 <ext> 00` and
update the cache iff the top 16 bits of the word address differ from the
cached value (`none` compares unequal to every number, as Python
`int != None`). -/
def extAddrFrames (wordAddr : Nat) (ext : Option Nat) :
    Option (List Frame × Option Nat) :=
  if ext = some (wordAddr >>> 16) then some ([], ext)
  else
    match byteE (wordAddr >>> 16) with
    | none => none
    | some e => some ([[0x4D, 0x00, e, 0x00]], some (wordAddr >>> 16))

/-- `_wait_poll_rdybsy` (lines 124-126): transmit-receive `F0 00 00 00` until
the received byte has its low bit clear.  The oracle supplies the last byte
of each exchange. -/
def waitRdyBsy : List Nat → Option (List Frame × List Nat)
  | [] => none
  | r :: rs =>
    if r % 2 = 0 then some ([[0xF0, 0x00, 0x00, 0x00]], rs)
    else
      match waitRdyBsy rs with
      | none => none
      | some (fs, rest) => some ([0xF0, 0x00, 0x00, 0x00] :: fs, rest)

/-- A read-poll loop: transmit `cmd`, receive one byte, stop when it equals
`expected` (`_wait_poll_flash`, lines 140-150). -/
def pollUntil (cmd : Frame) (expected : Nat) : List Nat → Option (List Frame × List Nat)
  | [] => none
  | r :: rs =>
    if r = expected then some ([cmd], rs)
    else
      match pollUntil cmd expected rs with
      | none => none
      | some (fs, rest) => some (cmd :: fs, rest)

/-- `_wait_poll_flash` (lines 128-152).  `cached` is `self.extended_addr`,
`pageAddr` is the page's word address (as passed from `program_page`). -/
def waitPollFlash (cached : Option Nat) (pb : List Nat) (pageAddr : Nat)
    (resp : List Nat) : Option (List Frame × List Nat) :=
  match pb.findIdx? (fun j => j != 0xFF) with
  | none => some ([], resp)
  | some bi =>
    match byteE (pageAddr >>> 16) with
    | none => none
    | some e1 =>
      let probe : Frame :=
        if bi % 2 = 0 then 0x20 :: pack16i ((pageAddr : Int) + (bi / 2 : Nat))
        else 0x28 :: pack16i ((pageAddr : Int) + (bi / 2 : Nat) - 1)
      match pollUntil probe (pb.getD bi 0) resp with
      | none => none
      | some (fs, rest) =>
        match cached with
        | none => none
        | some c =>
          match byteE c with
          | none => none
          | some e2 =>
            some ([0x4D, 0x00, e1, 0x00] :: (fs ++ [[0x4D, 0x00, e2, 0x00]]), rest)

/-- `self.busy_wait(spi_interface, page_buffer, page_addr)` (line 179),
dispatching on the mode chosen in `process`. -/
def busyRun : BusyMode → Option Nat → List Nat → Nat → List Nat →
    Option (List Frame × List Nat)
  | BusyMode.rdybsy, _, _, _, resp => waitRdyBsy resp
  | BusyMode.flashPoll, cached, pb, pageAddr, resp =>
      waitPollFlash cached pb pageAddr resp

/-- `program_page` (lines 154-179): byte loads, conditional extended-address
reload, page-write commit `4C <hi> <lo> 00`, busy wait.  Returns the
transmitted frames, the new `self.extended_addr`, and the remaining
response oracle. -/
def program_page (ext : Option Nat) (busy : BusyMode) (pb : List Nat)
    (pageByteAddr : Nat) (resp : List Nat) :
    Option (List Frame × Option Nat × List Nat) :=
  let wordAddr := pageByteAddr / 2
  match loadWords pb 0 (pb.length / 2) with
  | none => none
  | some loads =>
    match extAddrFrames wordAddr ext with
    | none => none
    | some (extFs, ext2) =>
      let commit : Frame := 0x4C :: (pack16 wordAddr ++ [0x00])
      match busyRun busy ext2 pb wordAddr resp with
      | none => none
      | some (busyFs, resp2) =>
        some (loads ++ extFs ++ commit :: busyFs, ext2, resp2)

/-- Outcome of the comparison loop of `verify` (lines 112-122): the source
either matches the dump, or diverges first at `index` (with the source byte
`expected` and the dump byte `actual`), or indexing `dump[index]` raises
IndexError. -/
inductive VerifyOutcome where
  | matched
  | mismatch (index expected actual : Nat)
  | indexError
deriving DecidableEq

/-- The comparison loop of `verify` (lines 112-122): walk the source bytes,
look up the dump at the running index, stop at the first divergence. -/
def compareFrom (dump : List Nat) : List Nat → Nat → VerifyOutcome
  | [], _ => VerifyOutcome.matched
  | b :: rest, idx =>
    if idx < dump.length then
      if b = dump.getD idx 0 then compareFrom dump rest (idx + 1)
      else VerifyOutcome.mismatch idx b (dump.getD idx 0)
    else VerifyOutcome.indexError

/-- State of the read-back loop of `verify`: local extended-address cache
(starts `none`, line 92), transmitted frames, the dump buffer, and the
remaining response oracle. -/
structure VSt where
  ext : Option Nat
  frames : List Frame
  dump : List Nat
  resp : List Nat
deriving DecidableEq

/-- `spi_interface.receive(1)`: one byte from the response oracle. -/
def recvByte : List Nat → Option (Nat × List Nat)
  | [] => none
  | r :: rs => some (r, rs)

/-- One iteration of the read loop of `verify` (lines 95-108): conditional
extended-address reload, then `20 <hi> <lo>` / receive / `28 <hi> <lo>` /
receive, appending both bytes to the dump. -/
def verifyWord (startWord : Nat) (st : VSt) (wi : Nat) : Option VSt :=
  let address := wi + startWord
  match extAddrFrames address st.ext with
  | none => none
  | some (extFs, ext2) =>
    match recvByte st.resp with
    | none => none
    | some (lo, r1) =>
      match recvByte r1 with
      | none => none
      | some (hi, r2) =>
        some ⟨ext2,
          st.frames ++ extFs ++ [0x20 :: pack16 address, 0x28 :: pack16 address],
          st.dump ++ [lo, hi], r2⟩

/-- The read-back loop of `verify` (lines 95-108): `chunkSize // 2` words
starting at word address `startAddr // 2`. -/
def verifyRead (chunkSize startAddr : Nat) (resp : List Nat) : Option VSt :=
  (List.range (chunkSize / 2)).foldlM (verifyWord (startAddr / 2)) ⟨none, [], [], resp⟩

/-- `verify` (lines 87-122): read back `chunkSize // 2` words, then compare
the dump to `chunk` byte by byte. -/
def verifyFlash (chunkSize startAddr : Nat) (chunk : List Nat) (resp : List Nat) :
    Option (List Frame × VerifyOutcome × List Nat) :=
  match verifyRead chunkSize startAddr resp with
  | none => none
  | some st => some (st.frames, compareFrom st.dump chunk 0, st.resp)

/-- The page buffer built in `write` (lines 204-209): the chunk slice at
`pos`, padded with `0xFF` to `pagesize` bytes. -/
def pageBuf (pagesize : Nat) (chunk : List Nat) (pos : Nat) : List Nat :=
  let s := (chunk.drop pos).take pagesize
  s ++ List.replicate (pagesize - s.length) 0xFF

/-- `range(0, len(chunk), flash_pagesize)` (line 201). -/
def pageOffsets (pagesize len : Nat) : List Nat :=
  (List.range ((len + pagesize - 1) / pagesize)).map (fun k => k * pagesize)

/-- State of the page loop of `write`: the running byte address, the session
extended-address cache `self.extended_addr`, the response oracle, the events
so far, and the `(page_buffer, address)` arguments of each `program_page`
call made. -/
structure WSt where
  addr : Nat
  ext : Option Nat
  resp : List Nat
  evs : List Ev
  calls : List (List Nat × Nat)
deriving DecidableEq

/-- One iteration of the page loop of `write` (lines 201-214): build the page
buffer; if it is all `0xFF`, `continue`; otherwise call `program_page` at the
current address and then advance the address by `pagesize`. -/
def writeStep (pagesize : Nat) (busy : BusyMode) (chunk : List Nat) (st : WSt)
    (pos : Nat) : Option WSt :=
  let buf := pageBuf pagesize chunk pos
  if buf.all (fun v => v == 0xFF) then some st
  else
    match program_page st.ext busy buf st.addr st.resp with
    | none => none
    | some (fs, ext2, resp2) =>
      some ⟨st.addr + pagesize, ext2, resp2, st.evs ++ fs.map Ev.tx,
        st.calls ++ [(buf, st.addr)]⟩

/-- `write` (lines 181-231): reset low, enable memory access, 500 ms settle,
the page loop, optional verification, reset high.  A verification IndexError
propagates as an exception (`none`). -/
def writeChunk (pagesize : Nat) (busy : BusyMode) (verifyFlag : Bool)
    (chunk : List Nat) (address : Nat) (ext : Option Nat) (resp : List Nat) :
    Option (List Ev × Option Nat × List Nat × List (List Nat × Nat)) :=
  let pre : List Ev := [Ev.resetLow, Ev.tx [0xAC, 0x53, 0x00, 0x00], Ev.sleepMs 500]
  match (pageOffsets pagesize chunk.length).foldlM (writeStep pagesize busy chunk)
      ⟨address, ext, resp, [], []⟩ with
  | none => none
  | some st =>
    if verifyFlag then
      match verifyRead chunk.length address st.resp with
      | none => none
      | some vst =>
        match compareFrom vst.dump chunk 0 with
        | VerifyOutcome.indexError => none
        | _ =>
          some (pre ++ st.evs ++ vst.frames.map Ev.tx ++ [Ev.resetHigh],
            st.ext, vst.resp, st.calls)
    else
      some (pre ++ st.evs ++ [Ev.resetHigh], st.ext, st.resp, st.calls)

/-- The firmware segments the `try` block of `process` (lines 262-280)
dispatches on the decode outcome: the decoded IntelHex parts if decoding
succeeded, else — on UnicodeDecodeError, hexformat DecodeError or
ValueError — the whole file as one raw segment at the configured start
address (advanced option, default 0).  This captures only runs whose writes
raise nothing: the `except` clause also spans the write calls themselves,
and that full control flow — a ValueError raised during a hex-path write
likewise triggers the raw fallback — is modelled by `processRunP`. -/
def segmentsLoaded (hexResult : Except Unit (List (Nat × List Nat)))
    (raw : List Nat) (startAddr : Nat) : List (Nat × List Nat) :=
  match hexResult with
  | Except.ok parts => parts
  | Except.error _ => [(startAddr, raw)]

/-- Session state accumulated across the per-segment `write` calls of
`process`. -/
structure PSt where
  evs : List Ev
  ext : Option Nat
  resp : List Nat
  calls : List (List Nat × Nat)
deriving DecidableEq

/-- One `self.write(...)` call of `process` (lines 274 and 280) on segment
`(address, data)`. -/
def writeSeg (pagesize : Nat) (busy : BusyMode) (verifyFlag : Bool) (st : PSt)
    (seg : Nat × List Nat) : Option PSt :=
  match writeChunk pagesize busy verifyFlag seg.2 seg.1 st.ext st.resp with
  | none => none
  | some (evs, ext2, resp2, calls2) =>
    some ⟨st.evs ++ evs, ext2, resp2, st.calls ++ calls2⟩

/-- `process` (lines 233-280) after device identification: reset high
(line 251), the erase sequence (line 254), busy-mode selection, then one
`write` call per loaded segment.  `flashSize` is the `flash_size` entry of
the device profile; the code never reads it.  Exceptions raised by the
writes are collapsed into `none` here; where the class of the exception
decides control flow — the try/except of the loader — the refinement
`processRunP` below applies. -/
def processRun (pagesize eraseDelay : Nat) (busy : BusyMode) (verifyFlag : Bool)
    (flashSize : Nat) (hexResult : Except Unit (List (Nat × List Nat)))
    (raw : List Nat) (startAddr : Nat) (resp : List Nat) : Option PSt :=
  match (segmentsLoaded hexResult raw startAddr).foldlM
      (writeSeg pagesize busy verifyFlag) ⟨[], none, resp, []⟩ with
  | none => none
  | some st =>
    some ⟨Ev.resetHigh :: (eraseEvs eraseDelay ++ st.evs), st.ext, st.resp, st.calls⟩

/-- Decidable equality on `Except`, for evaluating concrete `processRunP`
runs. -/
instance {e a : Type} [DecidableEq e] [DecidableEq a] : DecidableEq (Except e a)
  | Except.ok x, Except.ok y =>
    if h : x = y then isTrue (by rw [h]) else isFalse (fun hc => h (Except.ok.inj hc))
  | Except.error x, Except.error y =>
    if h : x = y then isTrue (by rw [h]) else isFalse (fun hc => h (Except.error.inj hc))
  | Except.ok x, Except.error y => isFalse (fun hc => Except.noConfusion hc)
  | Except.error x, Except.ok y => isFalse (fun hc => Except.noConfusion hc)
/-! ### Exception-classifying model of the `process` try/except (lines 262-280)

The `Option`-valued model above collapses every Python exception and every
exhaustion of the response oracle into `none`; that is adequate for runs
that raise nothing, but the `except (UnicodeDecodeError,
hexformat.base.DecodeError, ValueError)` clause of `process` spans the
whole `try` suite — the decode *and* the per-segment `self.write(...)`
calls — so to model it the kind of exception matters: a `ValueError`
raised while writing a successfully decoded image is caught and triggers
the raw-binary fallback, while `TypeError`/`IndexError` propagate.  The
definitions below refine the write stack accordingly: each returns the
partially transmitted frames together with an optional exception. -/

/-- The exception classes the model distinguishes.  `valueError` is raised
by `bytes([x])` with `x` outside 0..255 and is the one class the `except`
clause of `process` catches; `typeError` is `bytes([None])`; `indexError`
is `dump.getvalue()[index]` out of range in `verify`; `oracleOut` is a
model artifact marking exhaustion of the response oracle (in the source
the busy loop would simply keep spinning). -/
inductive PyErr where
  | valueError
  | typeError
  | indexError
  | oracleOut
deriving DecidableEq

/-- `bytes([n])` with the exception class recorded. -/
def byteV (n : Nat) : Except PyErr Nat :=
  if n < 256 then Except.ok n else Except.error PyErr.valueError

/-- The byte-load loop of `program_page` (lines 162-168) with partial
frames: `bytes([i])`/`bytes([low_byte])` raise before the low frame is
transmitted, `bytes([high_byte])` raises after it. -/
def loadWordsP (pb : List Nat) (i : Nat) : Nat → List Frame × Option PyErr
  | 0 => ([], none)
  | Nat.succ k =>
    match byteV i, byteV (pb.getD (2 * i) 0), byteV (pb.getD (2 * i + 1) 0) with
    | Except.ok ib, Except.ok lo, Except.ok hi =>
      let r := loadWordsP pb (i + 1) k
      ([0x40, 0x00, ib, lo] :: [0x48, 0x00, ib, hi] :: r.1, r.2)
    | Except.ok ib, Except.ok lo, Except.error e => ([[0x40, 0x00, ib, lo]], some e)
    | Except.error _, _, _ => ([], some PyErr.valueError)
    | _, Except.error _, _ => ([], some PyErr.valueError)

/-- Conditional extended-address reload with exceptions (`program_page`
lines 170-173 and `verify` lines 100-102): the cache is assigned (line 172
resp. 101) before `bytes([...])` is evaluated, so on a ValueError the
cache already holds the new bank while no frame was transmitted. -/
def extAddrFramesP (wordAddr : Nat) (ext : Option Nat) :
    List Frame × Option Nat × Option PyErr :=
  if ext = some (wordAddr >>> 16) then ([], ext, none)
  else
    match byteV (wordAddr >>> 16) with
    | Except.error e => ([], some (wordAddr >>> 16), some e)
    | Except.ok eb => ([[0x4D, 0x00, eb, 0x00]], some (wordAddr >>> 16), none)

/-- `_wait_poll_rdybsy` with partial frames; an exhausted oracle is the
`oracleOut` artifact. -/
def waitRdyBsyP : List Nat → (List Frame × List Nat) × Option PyErr
  | [] => (([], []), some PyErr.oracleOut)
  | r :: rs =>
    if r % 2 = 0 then (([[0xF0, 0x00, 0x00, 0x00]], rs), none)
    else
      match waitRdyBsyP rs with
      | ((fs, rest), err) => (([0xF0, 0x00, 0x00, 0x00] :: fs, rest), err)

/-- The read-poll loop of `_wait_poll_flash` with partial frames. -/
def pollUntilP (cmd : Frame) (expected : Nat) :
    List Nat → (List Frame × List Nat) × Option PyErr
  | [] => (([], []), some PyErr.oracleOut)
  | r :: rs =>
    if r = expected then (([cmd], rs), none)
    else
      match pollUntilP cmd expected rs with
      | ((fs, rest), err) => ((cmd :: fs, rest), err)

/-- `_wait_poll_flash` (lines 128-152) with exceptions: `bytes([page_addr
>> 16])` (line 136) can raise ValueError before any frame;
`bytes([self.extended_addr])` (line 152) raises TypeError on `None` and
ValueError on a value above 255. -/
def waitPollFlashP (cached : Option Nat) (pb : List Nat) (pageAddr : Nat)
    (resp : List Nat) : (List Frame × List Nat) × Option PyErr :=
  match pb.findIdx? (fun j => j != 0xFF) with
  | none => (([], resp), none)
  | some bi =>
    match byteV (pageAddr >>> 16) with
    | Except.error e => (([], resp), some e)
    | Except.ok e1 =>
      let probe : Frame :=
        if bi % 2 = 0 then 0x20 :: pack16i ((pageAddr : Int) + (bi / 2 : Nat))
        else 0x28 :: pack16i ((pageAddr : Int) + (bi / 2 : Nat) - 1)
      match pollUntilP probe (pb.getD bi 0) resp with
      | ((fs, rest), some e) => (([0x4D, 0x00, e1, 0x00] :: fs, rest), some e)
      | ((fs, rest), none) =>
        match cached with
        | none => (([0x4D, 0x00, e1, 0x00] :: fs, rest), some PyErr.typeError)
        | some c =>
          match byteV c with
          | Except.error e => (([0x4D, 0x00, e1, 0x00] :: fs, rest), some e)
          | Except.ok e2 =>
            (([0x4D, 0x00, e1, 0x00] :: (fs ++ [[0x4D, 0x00, e2, 0x00]]), rest), none)

/-- `self.busy_wait(...)` (line 179) with exceptions. -/
def busyRunP : BusyMode → Option Nat → List Nat → Nat → List Nat →
    (List Frame × List Nat) × Option PyErr
  | BusyMode.rdybsy, _, _, _, resp => waitRdyBsyP resp
  | BusyMode.flashPoll, cached, pb, pageAddr, resp =>
      waitPollFlashP cached pb pageAddr resp

/-- `program_page` (lines 154-179) with exceptions and partial frames. -/
def program_pageP (ext : Option Nat) (busy : BusyMode) (pb : List Nat)
    (pageByteAddr : Nat) (resp : List Nat) :
    (List Frame × Option Nat × List Nat) × Option PyErr :=
  let wordAddr := pageByteAddr / 2
  match loadWordsP pb 0 (pb.length / 2) with
  | (loads, some e) => ((loads, ext, resp), some e)
  | (loads, none) =>
    match extAddrFramesP wordAddr ext with
    | (extFs, ext2, some e) => ((loads ++ extFs, ext2, resp), some e)
    | (extFs, ext2, none) =>
      let commit : Frame := 0x4C :: (pack16 wordAddr ++ [0x00])
      match busyRunP busy ext2 pb wordAddr resp with
      | ((busyFs, resp2), err) =>
        ((loads ++ extFs ++ commit :: busyFs, ext2, resp2), err)

/-- State of the page loop of `write` in the exception-classifying model. -/
structure EW where
  addr : Nat
  ext : Option Nat
  resp : List Nat
  evs : List Ev
deriving DecidableEq

/-- The page loop of `write` (lines 201-214) with exceptions: it stops at
the first raising page, keeping the frames transmitted so far. -/
def writePagesP (pagesize : Nat) (busy : BusyMode) (chunk : List Nat) :
    List Nat → EW → EW × Option PyErr
  | [], st => (st, none)
  | pos :: rest, st =>
    let buf := pageBuf pagesize chunk pos
    if buf.all (fun v => v == 0xFF) then writePagesP pagesize busy chunk rest st
    else
      match program_pageP st.ext busy buf st.addr st.resp with
      | ((fs, ext2, resp2), none) =>
        writePagesP pagesize busy chunk rest
          ⟨st.addr + pagesize, ext2, resp2, st.evs ++ fs.map Ev.tx⟩
      | ((fs, ext2, resp2), some e) =>
        (⟨st.addr, ext2, resp2, st.evs ++ fs.map Ev.tx⟩, some e)

/-- State of the read loop of `verify` in the exception-classifying model. -/
structure EV where
  ext : Option Nat
  frames : List Frame
  dump : List Nat
  resp : List Nat
deriving DecidableEq

/-- One iteration of the read loop of `verify` (lines 95-108) with
exceptions (the conditional reload can raise ValueError for addresses with
a bank above 255). -/
def verifyWordP (startWord : Nat) (st : EV) (wi : Nat) : EV × Option PyErr :=
  let address := wi + startWord
  match extAddrFramesP address st.ext with
  | (extFs, ext2, some e) => (⟨ext2, st.frames ++ extFs, st.dump, st.resp⟩, some e)
  | (extFs, ext2, none) =>
    match st.resp with
    | [] =>
      (⟨ext2, st.frames ++ extFs ++ [0x20 :: pack16 address], st.dump, []⟩,
        some PyErr.oracleOut)
    | lo :: r1 =>
      match r1 with
      | [] =>
        (⟨ext2, st.frames ++ extFs ++
          [0x20 :: pack16 address, 0x28 :: pack16 address], st.dump ++ [lo], []⟩,
          some PyErr.oracleOut)
      | hi :: r2 =>
        (⟨ext2, st.frames ++ extFs ++
          [0x20 :: pack16 address, 0x28 :: pack16 address],
          st.dump ++ [lo, hi], r2⟩, none)

/-- The read loop of `verify`, stopping at the first raising word. -/
def verifyLoopP (startWord : Nat) : List Nat → EV → EV × Option PyErr
  | [], st => (st, none)
  | wi :: rest, st =>
    match verifyWordP startWord st wi with
    | (st2, none) => verifyLoopP startWord rest st2
    | (st2, some e) => (st2, some e)

/-- The read-back phase of `verify` (lines 87-108) with exceptions. -/
def verifyReadP (chunkSize startAddr : Nat) (resp : List Nat) : EV × Option PyErr :=
  verifyLoopP (startAddr / 2) (List.range (chunkSize / 2)) ⟨none, [], [], resp⟩

/-- `write` (lines 181-231) with exceptions: on a raise, reset is *not*
driven high (the exception propagates before lines 228/231); an IndexError
in the comparison loop (line 113) is uncaught. -/
def writeChunkP (pagesize : Nat) (busy : BusyMode) (verifyFlag : Bool)
    (chunk : List Nat) (address : Nat) (ext : Option Nat) (resp : List Nat) :
    (List Ev × Option Nat × List Nat) × Option PyErr :=
  let pre : List Ev := [Ev.resetLow, Ev.tx [0xAC, 0x53, 0x00, 0x00], Ev.sleepMs 500]
  match writePagesP pagesize busy chunk (pageOffsets pagesize chunk.length)
      ⟨address, ext, resp, []⟩ with
  | (st, some e) => ((pre ++ st.evs, st.ext, st.resp), some e)
  | (st, none) =>
    if verifyFlag then
      match verifyReadP chunk.length address st.resp with
      | (vst, some e) =>
        ((pre ++ st.evs ++ vst.frames.map Ev.tx, st.ext, vst.resp), some e)
      | (vst, none) =>
        match compareFrom vst.dump chunk 0 with
        | VerifyOutcome.indexError =>
          ((pre ++ st.evs ++ vst.frames.map Ev.tx, st.ext, vst.resp),
            some PyErr.indexError)
        | _ =>
          ((pre ++ st.evs ++ vst.frames.map Ev.tx ++ [Ev.resetHigh], st.ext,
            vst.resp), none)
    else ((pre ++ st.evs ++ [Ev.resetHigh], st.ext, st.resp), none)

/-- Session state of `process` in the exception-classifying model.
`writes` records the `(address, data)` argument pair of every
`self.write(...)` call made (lines 274 and 280), including the one that
raised. -/
structure PStE where
  evs : List Ev
  ext : Option Nat
  resp : List Nat
  writes : List (Nat × List Nat)
deriving DecidableEq

/-- The per-segment write loop of `process` (lines 271-275), stopping at
the first raising write; the session cache `self.extended_addr` and the
response oracle persist across calls. -/
def writeSegsP (pagesize : Nat) (busy : BusyMode) (vf : Bool) :
    List (Nat × List Nat) → PStE → PStE × Option PyErr
  | [], st => (st, none)
  | seg :: rest, st =>
    match writeChunkP pagesize busy vf seg.2 seg.1 st.ext st.resp with
    | ((evs, ext2, resp2), none) =>
      writeSegsP pagesize busy vf rest
        ⟨st.evs ++ evs, ext2, resp2, st.writes ++ [seg]⟩
    | ((evs, ext2, resp2), some e) =>
      (⟨st.evs ++ evs, ext2, resp2, st.writes ++ [seg]⟩, some e)

/-- The `except` body of `process` (lines 276-280): write the whole file as
one raw segment at the configured start address.  An exception raised here
is no longer caught and propagates. -/
def rawFallback (pagesize : Nat) (busy : BusyMode) (vf : Bool)
    (raw : List Nat) (startAddr : Nat) (st : PStE) : Except PyErr PStE :=
  match writeSegsP pagesize busy vf [(startAddr, raw)] st with
  | (st2, none) => Except.ok st2
  | (_, some e) => Except.error e

/-- Session state after reset-high (line 251) and the erase sequence
(line 254), before the `try` block. -/
def processInit (eraseDelay : Nat) (resp : List Nat) : PStE :=
  ⟨Ev.resetHigh :: eraseEvs eraseDelay, none, resp, []⟩

/-- `process` (lines 233-280) in the exception-classifying model.  The
`try` suite decodes and then writes every decoded segment; the `except`
clause catches exactly the decode failure or a `ValueError` raised inside
those writes, and falls back — from the session state the failed attempt
left behind — to writing the file as one raw segment at the configured
start address.  Any other exception propagates.  `flashSize` is the
profile's `flash_size` entry; the code never reads it. -/
def processRunP (pagesize eraseDelay : Nat) (busy : BusyMode) (vf : Bool)
    (flashSize : Nat) (hexResult : Except Unit (List (Nat × List Nat)))
    (raw : List Nat) (startAddr : Nat) (resp : List Nat) : Except PyErr PStE :=
  match hexResult with
  | Except.error _ =>
    rawFallback pagesize busy vf raw startAddr (processInit eraseDelay resp)
  | Except.ok parts =>
    match writeSegsP pagesize busy vf parts (processInit eraseDelay resp) with
    | (st, none) => Except.ok st
    | (st, some e) =>
      if e = PyErr.valueError then rawFallback pagesize busy vf raw startAddr st
      else Except.error e

/-! ### Helper lemmas -/

/-- Two equal adjacent entries. -/
def adjacentDup : List Nat → Bool
  | a :: b :: rest => a == b || adjacentDup (b :: rest)
  | _ => false

/-- A frame list performs a redundant extended-address reload when some
load frame carries the very value the previous load frame already wrote
to the register. -/
def hasRedundantReload (fs : List Frame) : Bool :=
  adjacentDup (extLoads fs)

theorem byteE_some {n m : Nat} (h : byteE n = some m) : m = n ∧ n < 256 := by
  unfold byteE at h
  split at h
  · exact ⟨(Option.some.inj h).symm, by assumption⟩
  · exact absurd h (by simp)

theorem extByte_load (e : Nat) : extByte [0x4D, 0x00, e, 0x00] = some e := rfl

theorem extByte_low (i b : Nat) : extByte [0x40, 0x00, i, b] = none := rfl

theorem extByte_high (i b : Nat) : extByte [0x48, 0x00, i, b] = none := rfl

theorem extByte_commit (w : Nat) :
    extByte (0x4C :: (pack16 w ++ [0x00])) = none := rfl

theorem extByte_poll : extByte [0xF0, 0x00, 0x00, 0x00] = none := rfl

theorem extByte_read (c : Nat) (a : Int) : extByte (c :: pack16i a) = none := rfl

theorem loadWords_eq_spec (pb : List Nat) :
    ∀ k i l, loadWords pb i k = some l → l = specWordLoads pb i k := by
  intro k
  induction k with
  | zero => intro i l h; simpa [loadWords, specWordLoads] using h.symm
  | succ k ih =>
    intro i l h
    rw [loadWords] at h
    cases hib : byteE i with
    | none => rw [hib] at h; exact absurd h (by simp)
    | some ib =>
      cases hlo : byteE (pb.getD (2 * i) 0) with
      | none => rw [hib, hlo] at h; exact absurd h (by simp)
      | some lo =>
        cases hhi : byteE (pb.getD (2 * i + 1) 0) with
        | none => rw [hib, hlo, hhi] at h; exact absurd h (by simp)
        | some hi =>
          cases hrest : loadWords pb (i + 1) k with
          | none => rw [hib, hlo, hhi, hrest] at h; exact absurd h (by simp)
          | some rest =>
            rw [hib, hlo, hhi, hrest] at h
            simp only [Option.some.injEq] at h
            obtain ⟨hib2, _⟩ := byteE_some hib
            obtain ⟨hlo2, _⟩ := byteE_some hlo
            obtain ⟨hhi2, _⟩ := byteE_some hhi
            rw [← h, specWordLoads, hib2, hlo2, hhi2, ih (i + 1) rest hrest]

theorem extByte_specWordLoads (pb : List Nat) :
    ∀ k i f, f ∈ specWordLoads pb i k → extByte f = none := by
  intro k
  induction k with
  | zero => intro i f h; simp [specWordLoads] at h
  | succ k ih =>
    intro i f h
    rw [specWordLoads] at h
    rcases List.mem_cons.mp h with h | h
    · rw [h]; exact extByte_low i (pb.getD (2 * i) 0)
    · rcases List.mem_cons.mp h with h | h
      · rw [h]; exact extByte_high i (pb.getD (2 * i + 1) 0)
      · exact ih (i + 1) f h

theorem waitRdyBsy_mem :
    ∀ resp fs rest, waitRdyBsy resp = some (fs, rest) →
      ∀ f ∈ fs, f = [0xF0, 0x00, 0x00, 0x00] := by
  intro resp
  induction resp with
  | nil => intro fs rest h; exact absurd h (by simp [waitRdyBsy])
  | cons r rs ih =>
    intro fs rest h
    rw [waitRdyBsy] at h
    split at h
    · simp only [Option.some.injEq, Prod.mk.injEq] at h
      rw [← h.1]
      intro f hf
      simpa using hf
    · cases hrec : waitRdyBsy rs with
      | none => rw [hrec] at h; exact absurd h (by simp)
      | some p =>
        rw [hrec] at h
        obtain ⟨fs2, rest2⟩ := p
        simp only [Option.some.injEq, Prod.mk.injEq] at h
        rw [← h.1]
        intro f hf
        rcases List.mem_cons.mp hf with hf | hf
        · exact hf
        · exact ih fs2 rest2 hrec f hf

theorem pollUntil_mem (cmd : Frame) (expected : Nat) :
    ∀ resp fs rest, pollUntil cmd expected resp = some (fs, rest) →
      ∀ f ∈ fs, f = cmd := by
  intro resp
  induction resp with
  | nil => intro fs rest h; exact absurd h (by simp [pollUntil])
  | cons r rs ih =>
    intro fs rest h
    rw [pollUntil] at h
    split at h
    · simp only [Option.some.injEq, Prod.mk.injEq] at h
      rw [← h.1]
      intro f hf
      simpa using hf
    · cases hrec : pollUntil cmd expected rs with
      | none => rw [hrec] at h; exact absurd h (by simp)
      | some p =>
        rw [hrec] at h
        obtain ⟨fs2, rest2⟩ := p
        simp only [Option.some.injEq, Prod.mk.injEq] at h
        rw [← h.1]
        intro f hf
        rcases List.mem_cons.mp hf with hf | hf
        · exact hf
        · exact ih fs2 rest2 hrec f hf

theorem extAddrFrames_some {w : Nat} {ext : Option Nat} {extFs : List Frame}
    {ext2 : Option Nat} (h : extAddrFrames w ext = some (extFs, ext2)) :
    (ext = some (w >>> 16) ∧ extFs = [] ∧ ext2 = ext) ∨
    (ext ≠ some (w >>> 16) ∧ extFs = [[0x4D, 0x00, w >>> 16, 0x00]] ∧
      ext2 = some (w >>> 16)) := by
  unfold extAddrFrames at h
  split at h
  · left
    simp only [Option.some.injEq, Prod.mk.injEq] at h
    exact ⟨by assumption, h.1.symm, h.2.symm⟩
  · right
    cases hb : byteE (w >>> 16) with
    | none => rw [hb] at h; exact absurd h (by simp)
    | some e =>
      rw [hb] at h
      simp only [Option.some.injEq, Prod.mk.injEq] at h
      obtain ⟨he, _⟩ := byteE_some hb
      subst he
      exact ⟨by assumption, h.1.symm, h.2.symm⟩

theorem program_page_some {ext : Option Nat} {busy : BusyMode} {pb : List Nat}
    {A : Nat} {resp : List Nat} {fs : List Frame} {ext2 : Option Nat}
    {resp2 : List Nat}
    (h : program_page ext busy pb A resp = some (fs, ext2, resp2)) :
    ∃ loads extFs busyFs,
      loadWords pb 0 (pb.length / 2) = some loads ∧
      extAddrFrames (A / 2) ext = some (extFs, ext2) ∧
      busyRun busy ext2 pb (A / 2) resp = some (busyFs, resp2) ∧
      fs = loads ++ extFs ++ (0x4C :: (pack16 (A / 2) ++ [0x00])) :: busyFs := by
  simp only [program_page] at h
  split at h
  · exact Option.noConfusion h
  next loads hL =>
    split at h
    · exact Option.noConfusion h
    next extFs extc hE =>
      split at h
      · exact Option.noConfusion h
      next busyFs restc hB =>
        simp only [Option.some.injEq, Prod.mk.injEq] at h
        obtain ⟨hfs, hext, hresp⟩ := h
        subst hext hresp
        exact ⟨loads, extFs, busyFs, hL, hE, hB, hfs.symm⟩

theorem extLoads_append (a b : List Frame) :
    extLoads (a ++ b) = extLoads a ++ extLoads b := by
  simp [extLoads, List.filterMap_append]

theorem extLoads_of_none {fs : List Frame} (h : ∀ f ∈ fs, extByte f = none) :
    extLoads fs = [] := by
  simp only [extLoads, List.filterMap_eq_nil]
  exact h

theorem regAfter_append (r : Option Nat) (a b : List Frame) :
    regAfter r (a ++ b) = regAfter (regAfter r a) b := by
  simp [regAfter, List.foldl_append]

theorem regAfter_of_none {fs : List Frame} (h : ∀ f ∈ fs, extByte f = none)
    (r : Option Nat) : regAfter r fs = r := by
  induction fs generalizing r with
  | nil => rfl
  | cons f fs ih =>
    have hf : extByte f = none := h f (List.mem_cons_self f fs)
    simp only [regAfter, List.foldl_cons, hf]
    exact ih (fun g hg => h g (List.mem_cons_of_mem f hg)) r

theorem regAfter_load (r : Option Nat) (fs : List Frame) (e : Nat) :
    regAfter r (fs ++ [[0x4D, 0x00, e, 0x00]]) = some e := by
  rw [regAfter_append]
  rfl

/-- Shape of a successful `_wait_poll_flash` run: either the page buffer is
all `0xFF` and nothing is transmitted, or the frames are an unconditional
extended-address load of the page bank, the read-poll probes (three-byte
read frames), and a final extended-address load of the cached value. -/
theorem waitPollFlash_some {cached : Option Nat} {pb : List Nat}
    {pageAddr : Nat} {resp : List Nat} {fs : List Frame} {rest : List Nat}
    (h : waitPollFlash cached pb pageAddr resp = some (fs, rest)) :
    (pb.findIdx? (fun j => j != 0xFF) = none ∧ fs = [] ∧ rest = resp) ∨
    (∃ c pollFs, cached = some c ∧ c < 256 ∧ pageAddr >>> 16 < 256 ∧
      fs = [0x4D, 0x00, pageAddr >>> 16, 0x00] ::
        (pollFs ++ [[0x4D, 0x00, c, 0x00]]) ∧
      (∀ f ∈ pollFs, ∃ x a b, f = [x, a, b])) := by
  unfold waitPollFlash at h
  split at h
  · left
    simp only [Option.some.injEq, Prod.mk.injEq] at h
    exact ⟨by assumption, h.1.symm, h.2.symm⟩
  next bi hbi =>
    right
    split at h
    · exact Option.noConfusion h
    next e1 he1 =>
      obtain ⟨he1v, he1lt⟩ := byteE_some he1
      by_cases hpar : bi % 2 = 0
      · simp only [if_pos hpar] at h
        split at h
        · exact Option.noConfusion h
        next fs2 rest2 hpoll =>
          split at h
          · exact Option.noConfusion h
          next c =>
            split at h
            · exact Option.noConfusion h
            next e2 he2 =>
              obtain ⟨he2v, he2lt⟩ := byteE_some he2
              simp only [Option.some.injEq, Prod.mk.injEq] at h
              refine ⟨c, fs2, rfl, he2lt, he1lt, ?_, ?_⟩
              · rw [← h.1, he1v, he2v]
              · intro f hf
                have hcmd := pollUntil_mem _ _ resp fs2 rest2 hpoll f hf
                rw [hcmd]
                exact ⟨0x20, _, _, rfl⟩
      · simp only [if_neg hpar] at h
        split at h
        · exact Option.noConfusion h
        next fs2 rest2 hpoll =>
          split at h
          · exact Option.noConfusion h
          next c =>
            split at h
            · exact Option.noConfusion h
            next e2 he2 =>
              obtain ⟨he2v, he2lt⟩ := byteE_some he2
              simp only [Option.some.injEq, Prod.mk.injEq] at h
              refine ⟨c, fs2, rfl, he2lt, he1lt, ?_, ?_⟩
              · rw [← h.1, he1v, he2v]
              · intro f hf
                have hcmd := pollUntil_mem _ _ resp fs2 rest2 hpoll f hf
                rw [hcmd]
                exact ⟨0x28, _, _, rfl⟩

theorem regAfter_busy {busy : BusyMode} {ext2 : Option Nat} {pb : List Nat}
    {w : Nat} {resp : List Nat} {busyFs : List Frame} {rest : List Nat}
    (h : busyRun busy ext2 pb w resp = some (busyFs, rest))
    (r : Option Nat) (hr : r = ext2) : regAfter r busyFs = ext2 := by
  cases busy with
  | rdybsy =>
    have hmem := waitRdyBsy_mem resp busyFs rest h
    rw [regAfter_of_none (fun f hf => by rw [hmem f hf]; rfl) r, hr]
  | flashPoll =>
    rcases waitPollFlash_some h with ⟨_, hnil, _⟩ | ⟨c, pollFs, hc, _, _, hfs, _⟩
    · rw [hnil]; exact hr
    · rw [hfs, ← List.cons_append, regAfter_load]
      exact hc.symm

/-! ### Claim theorems -/

/-- Claim C7: after every `program_page` call (which includes the busy-wait
probe, hence also the ReadBackPoll path), the updated cache
`self.extended_addr` equals the value most recently written to the target's
extended-address register, provided the register held the cached value on
entry.  In particular the ReadBackPoll strategy ends by reloading the cached
bank value. -/
theorem c7_ext_cache_matches_register {reg ext : Option Nat} {busy : BusyMode}
    {pb : List Nat} {A : Nat} {resp : List Nat} {fs : List Frame}
    {ext2 : Option Nat} {resp2 : List Nat}
    (hreg : reg = ext)
    (h : program_page ext busy pb A resp = some (fs, ext2, resp2)) :
    regAfter reg fs = ext2 := by
  obtain ⟨loads, extFs, busyFs, hL, hE, hB, hfs⟩ := program_page_some h
  subst hfs
  have hspec := loadWords_eq_spec pb (pb.length / 2) 0 loads hL
  have hloads : regAfter reg loads = reg := by
    refine regAfter_of_none ?_ reg
    intro f hf
    exact extByte_specWordLoads pb (pb.length / 2) 0 f (by rw [← hspec]; exact hf)
  rw [regAfter_append, regAfter_append, hloads]
  rcases extAddrFrames_some hE with ⟨hsame, hnil, hext2⟩ | ⟨hdiff, hframe, hext2⟩
  · rw [hnil]
    show regAfter reg busyFs = ext2
    exact regAfter_busy hB reg (by rw [hreg, hext2])
  · rw [hframe]
    show regAfter (some ((A / 2) >>> 16)) busyFs = ext2
    exact regAfter_busy hB _ hext2.symm

/-- Claim C7 witness: a concrete ReadBackPoll run; the probe reloads bank 0
twice and the cache `some 0` matches the register afterwards. -/
theorem c7_witness :
    (none : Option Nat) = none ∧
    regAfter none [[0x40, 0x00, 0x00, 0x00], [0x48, 0x00, 0x00, 0x00],
      [0x4D, 0x00, 0x00, 0x00], [0x4C, 0x00, 0x00, 0x00],
      [0x4D, 0x00, 0x00, 0x00], [0x20, 0x00, 0x00],
      [0x4D, 0x00, 0x00, 0x00]] = some 0 :=
  ⟨rfl, @c7_ext_cache_matches_register none none BusyMode.flashPoll [0x00, 0x00] 0
    [0] [[0x40, 0x00, 0x00, 0x00], [0x48, 0x00, 0x00, 0x00],
      [0x4D, 0x00, 0x00, 0x00], [0x4C, 0x00, 0x00, 0x00],
      [0x4D, 0x00, 0x00, 0x00], [0x20, 0x00, 0x00],
      [0x4D, 0x00, 0x00, 0x00]] (some 0) [] rfl (by decide)⟩

/-- Claim C3 counterexample: a concrete ReadBackPoll (`_wait_poll_flash`)
run.  `program_page` first loads bank 0 conditionally (cache miss), then the
busy probe transmits `4D 00 00 00` again although bank 0 is already loaded,
and once more to restore it — two redundant reloads, refuting the claim that
a reload is transmitted only when the bank differs from the previously
loaded value. -/
theorem c3_readback_poll_redundant_reload :
    program_page none BusyMode.flashPoll [0x00, 0x00] 0 [0] =
      some ([[0x40, 0x00, 0x00, 0x00], [0x48, 0x00, 0x00, 0x00],
        [0x4D, 0x00, 0x00, 0x00], [0x4C, 0x00, 0x00, 0x00],
        [0x4D, 0x00, 0x00, 0x00], [0x20, 0x00, 0x00],
        [0x4D, 0x00, 0x00, 0x00]], some 0, []) ∧
    extLoads [[0x40, 0x00, 0x00, 0x00], [0x48, 0x00, 0x00, 0x00],
      [0x4D, 0x00, 0x00, 0x00], [0x4C, 0x00, 0x00, 0x00],
      [0x4D, 0x00, 0x00, 0x00], [0x20, 0x00, 0x00],
      [0x4D, 0x00, 0x00, 0x00]] = [0, 0, 0] ∧
    hasRedundantReload [[0x40, 0x00, 0x00, 0x00], [0x48, 0x00, 0x00, 0x00],
      [0x4D, 0x00, 0x00, 0x00], [0x4C, 0x00, 0x00, 0x00],
      [0x4D, 0x00, 0x00, 0x00], [0x20, 0x00, 0x00],
      [0x4D, 0x00, 0x00, 0x00]] = true := by
  refine ⟨by decide, by decide, by decide⟩

/-- Claim C3 amended: in `program_page` the extended-address frame is
transmitted if and only if the top 16 bits of the word address differ from
the cached value, so with the ReadyBusyPoll busy strategy a session never
transmits a redundant reload; the ReadBackPoll probe, however,
unconditionally retransmits the bank (see the counterexample). -/
theorem c3_ext_reload_iff_bank_changes {ext : Option Nat} {pb : List Nat}
    {A : Nat} {resp : List Nat} {fs : List Frame} {ext2 : Option Nat}
    {resp2 : List Nat}
    (h : program_page ext BusyMode.rdybsy pb A resp = some (fs, ext2, resp2)) :
    extLoads fs = (if ext = some ((A / 2) >>> 16) then [] else [(A / 2) >>> 16]) ∧
    ext2 = some ((A / 2) >>> 16) := by
  obtain ⟨loads, extFs, busyFs, hL, hE, hB, hfs⟩ := program_page_some h
  subst hfs
  have hspec := loadWords_eq_spec pb (pb.length / 2) 0 loads hL
  have hl1 : extLoads loads = [] :=
    extLoads_of_none (fun f hf =>
      extByte_specWordLoads pb (pb.length / 2) 0 f (by rw [← hspec]; exact hf))
  have hl3 : extLoads busyFs = [] :=
    extLoads_of_none (fun f hf => by
      rw [waitRdyBsy_mem resp busyFs resp2 hB f hf]; rfl)
  have hcommit : extLoads ((0x4C :: (pack16 (A / 2) ++ [0x00])) :: busyFs) =
      extLoads busyFs := rfl
  rw [extLoads_append, extLoads_append, hl1, hcommit, hl3]
  rcases extAddrFrames_some hE with ⟨hsame, hnil, hext2⟩ | ⟨hdiff, hframe, hext2⟩
  · rw [hnil, if_pos hsame, hext2, hsame]
    exact ⟨rfl, rfl⟩
  · rw [hframe, if_neg hdiff, hext2]
    exact ⟨rfl, rfl⟩

/-- Claim C3 witness: a concrete ReadyBusyPoll page programming at a fresh
cache transmits exactly one extended-address load, of bank 0. -/
theorem c3_witness :
    extLoads [[0x40, 0x00, 0x00, 0x12], [0x48, 0x00, 0x00, 0x34],
      [0x4D, 0x00, 0x00, 0x00], [0x4C, 0x00, 0x03, 0x00],
      [0xF0, 0x00, 0x00, 0x00]] =
      (if (none : Option Nat) = some ((6 / 2) >>> 16) then []
        else [(6 / 2) >>> 16]) ∧
    (some ((6 / 2) >>> 16) : Option Nat) = some ((6 / 2) >>> 16) :=
  ⟨(@c3_ext_reload_iff_bank_changes none [0x12, 0x34] 6 [2]
      [[0x40, 0x00, 0x00, 0x12], [0x48, 0x00, 0x00, 0x34],
        [0x4D, 0x00, 0x00, 0x00], [0x4C, 0x00, 0x03, 0x00],
        [0xF0, 0x00, 0x00, 0x00]] (some 0) [] (by decide)).1, rfl⟩

/-- Claim C5: for a non-all-`0xFF` page buffer of even length, `program_page`
transmits exactly the ascending interleaved byte-load frames
`40 00 i pb[2i]`, `48 00 i pb[2i+1]` for every word index, then (after any
extended-address handling `extFs`) the commit frame
`4C <hi> <lo> 00` carrying the 16-bit word address `A / 2` big-endian; the
commit frame never precedes a byte-load frame of the page. -/
theorem c5_page_frame_order {ext : Option Nat} {busy : BusyMode}
    {pb : List Nat} {A : Nat} {resp : List Nat} {fs : List Frame}
    {ext2 : Option Nat} {resp2 : List Nat}
    (heven : pb.length % 2 = 0)
    (hnff : pb.all (fun v => v == 0xFF) ≠ true)
    (h : program_page ext busy pb A resp = some (fs, ext2, resp2)) :
    ∃ extFs busyFs, fs = specWordLoads pb 0 (pb.length / 2) ++ extFs ++
      ([0x4C, A / 2 % 65536 / 256, A / 2 % 256, 0x00] :: busyFs) := by
  obtain ⟨loads, extFs, busyFs, hL, hE, hB, hfs⟩ := program_page_some h
  exact ⟨extFs, busyFs, by
    rw [hfs, loadWords_eq_spec pb (pb.length / 2) 0 loads hL]; rfl⟩

/-- Claim C5 witness: page buffer `12 34` at byte address 6 (word address 3)
under ReadyBusyPoll. -/
theorem c5_witness :
    ([0x12, 0x34] : List Nat).length % 2 = 0 ∧
    ([0x12, 0x34] : List Nat).all (fun v => v == 0xFF) ≠ true ∧
    (∃ extFs busyFs,
      [[0x40, 0x00, 0x00, 0x12], [0x48, 0x00, 0x00, 0x34],
       [0x4D, 0x00, 0x00, 0x00], [0x4C, 0x00, 0x03, 0x00],
       [0xF0, 0x00, 0x00, 0x00]] =
        specWordLoads [0x12, 0x34] 0 (([0x12, 0x34] : List Nat).length / 2) ++
          extFs ++ ([0x4C, 6 / 2 % 65536 / 256, 6 / 2 % 256, 0x00] :: busyFs)) :=
  ⟨by decide, by decide,
    @c5_page_frame_order none BusyMode.rdybsy [0x12, 0x34] 6 [2]
      [[0x40, 0x00, 0x00, 0x12], [0x48, 0x00, 0x00, 0x34],
       [0x4D, 0x00, 0x00, 0x00], [0x4C, 0x00, 0x03, 0x00],
       [0xF0, 0x00, 0x00, 0x00]] (some 0) []
      (by decide) (by decide) (by decide)⟩

/-- Claim C4: a page buffer that is entirely `0xFF` is skipped by the page
loop of `write`: the loop state — and hence the wire trace `evs` and the
list of `program_page` calls — is unchanged by that page, so zero frames
are transmitted for it. -/
theorem c4_all_ff_page_emits_nothing {pagesize : Nat} {busy : BusyMode}
    {chunk : List Nat} (st : WSt) (pos : Nat)
    (h : (pageBuf pagesize chunk pos).all (fun v => v == 0xFF) = true) :
    writeStep pagesize busy chunk st pos = some st := by
  unfold writeStep
  rw [if_pos h]

/-- Claim C4 witness: a two-byte `FF FF` page. -/
theorem c4_witness :
    (pageBuf 2 [0xFF, 0xFF] 0).all (fun v => v == 0xFF) = true ∧
    writeStep 2 BusyMode.rdybsy [0xFF, 0xFF]
      ⟨5, none, [], [], []⟩ 0 = some ⟨5, none, [], [], []⟩ :=
  ⟨by decide, c4_all_ff_page_emits_nothing ⟨5, none, [], [], []⟩ 0 (by decide)⟩

/-- Claim C2 evaluated at the failing input (status: code bug).  Chunk
`00 00 FF FF 00 00` with page size 2 and start address 0: the middle page is
all `0xFF` and skipped, but the `continue` also skips the
`address = address + flash_pagesize` line, so the page at chunk offset 4 is
programmed at flash byte address 2, not 4 as the spec's address arithmetic
(`start_address + k * page_size`) requires. -/
theorem c2_skipped_page_address_not_advanced :
    (writeChunk 2 BusyMode.rdybsy false [0x00, 0x00, 0xFF, 0xFF, 0x00, 0x00]
        0 none [0, 0]).map (fun r => r.2.2.2) =
      some [([0x00, 0x00], 0), ([0x00, 0x00], 2)] := by
  decide

/-- Claim C9 counterexample: with `erase_delay = 500` the code performs
`time.sleep(500 // 1000) = time.sleep(0)` — a zero wait, not the claimed
exact 500 ms — and also drives reset low twice; the trace differs from the
claimed sequence. -/
theorem c9_erase_delay_truncated :
    eraseEvs 500 = [Ev.resetLow, Ev.resetLow, Ev.tx [0xAC, 0x53, 0x00, 0x00],
      Ev.sleepMs 500, Ev.tx [0xAC, 0x80, 0x00, 0x00], Ev.sleepMs 0,
      Ev.resetHigh] ∧
    eraseEvs 500 ≠ eraseSpecEvs 500 ∧
    eraseEvs 500 ≠ Ev.resetLow :: eraseSpecEvs 500 := by
  refine ⟨rfl, by decide, by decide⟩

/-- Claim C9 amended: the erase sequence is the claimed one except that
reset is driven low twice at the start and the second wait is
`erase_delay // 1000` whole seconds — exactly `erase_delay` ms only when
`erase_delay` is a multiple of 1000.  No response is read at any step (the
trace contains transmit, sleep and reset events only). -/
theorem c9_erase_sequence_amended (d : Nat) :
    eraseEvs d = Ev.resetLow :: eraseSpecEvs (d / 1000 * 1000) := rfl

/-- Claim C1 counterexample: device profile with `flash_size = 4`, raw image
of 5 = `flash_size + 1` bytes.  The claim requires a capacity failure with
no erase and no page-write frame; instead the run succeeds, transmits the
chip-erase frame `AC 80 00 00` and the page-write-commit frame
`4C 00 00 00`.  (`processRun` never consults its `flashSize` argument.) -/
theorem c1_oversized_image_erased_and_written :
    (processRun 2 9000 BusyMode.rdybsy false 4 (Except.error ())
        [1, 2, 3, 4, 5] 0 [0, 0, 0]).map
      (fun st => decide (Ev.tx [0xAC, 0x80, 0x00, 0x00] ∈ st.evs) &&
        decide (Ev.tx [0x4C, 0x00, 0x00, 0x00] ∈ st.evs)) = some true := by
  decide

/-- Claim C1 amended: no capacity check exists.  Every successful `process`
run — whatever the image size and the device's `flash_size` — starts with
reset high followed by the full erase sequence, before the firmware is even
examined; no capacity error is ever raised. -/
theorem c1_erase_always_precedes_any_size_check {pagesize eraseDelay : Nat}
    {busy : BusyMode} {vf : Bool} {flashSize : Nat}
    {hexResult : Except Unit (List (Nat × List Nat))} {raw : List Nat}
    {startAddr : Nat} {resp : List Nat} {st : PSt}
    (h : processRun pagesize eraseDelay busy vf flashSize hexResult raw
      startAddr resp = some st) :
    ∃ rest, st.evs = Ev.resetHigh :: (eraseEvs eraseDelay ++ rest) := by
  unfold processRun at h
  split at h
  · exact Option.noConfusion h
  next st2 hfold =>
    refine ⟨st2.evs, ?_⟩
    rw [← Option.some.inj h]

/-- Claim C1 witness: an empty decoded image on a device with erase delay
1000 ms. -/
theorem c1_witness :
    processRun 2 1000 BusyMode.rdybsy false 64 (Except.ok []) [] 0 [] =
      some ⟨Ev.resetHigh :: (eraseEvs 1000 ++ []), none, [], []⟩ ∧
    (∃ rest, (Ev.resetHigh :: (eraseEvs 1000 ++ []) : List Ev) =
      Ev.resetHigh :: (eraseEvs 1000 ++ rest)) :=
  ⟨by decide,
    @c1_erase_always_precedes_any_size_check 2 1000 BusyMode.rdybsy false 64
      (Except.ok []) [] 0 [] ⟨Ev.resetHigh :: (eraseEvs 1000 ++ []), none, [], []⟩
      (by decide)⟩
theorem getD_take (l : List Nat) : ∀ k i, i < k → (l.take k).getD i 0 = l.getD i 0 := by
  induction l with
  | nil => intro k i _; simp
  | cons a l ih =>
    intro k i hik
    cases k with
    | zero => omega
    | succ k2 =>
      cases i with
      | zero => simp
      | succ i2 => simpa using ih k2 i2 (by omega)

theorem compareFrom_matched (dump : List Nat) :
    ∀ chunk idx, idx + chunk.length ≤ dump.length →
      (∀ i, i < chunk.length → chunk.getD i 0 = dump.getD (idx + i) 0) →
      compareFrom dump chunk idx = VerifyOutcome.matched := by
  intro chunk
  induction chunk with
  | nil => intro idx _ _; rfl
  | cons b rest ih =>
    intro idx hlen hall
    rw [compareFrom, if_pos (by simp only [List.length_cons] at hlen; omega)]
    have hb : b = dump.getD idx 0 := by simpa using hall 0 (by simp)
    rw [if_pos hb]
    apply ih (idx + 1) (by simp only [List.length_cons] at hlen ⊢; omega)
    intro i hi
    have harith : idx + 1 + i = idx + (i + 1) := by omega
    rw [harith]
    simpa using hall (i + 1) (by simp only [List.length_cons]; omega)

theorem compareFrom_mismatch (dump : List Nat) :
    ∀ chunk idx i, i < chunk.length → idx + chunk.length ≤ dump.length →
      chunk.getD i 0 ≠ dump.getD (idx + i) 0 →
      (∀ j, j < i → chunk.getD j 0 = dump.getD (idx + j) 0) →
      compareFrom dump chunk idx =
        VerifyOutcome.mismatch (idx + i) (chunk.getD i 0) (dump.getD (idx + i) 0) := by
  intro chunk
  induction chunk with
  | nil => intro idx i hi; simp at hi
  | cons b rest ih =>
    intro idx i hi hlen hne hpre
    rw [compareFrom, if_pos (by simp only [List.length_cons] at hlen; omega)]
    cases i with
    | zero =>
      have hb : b ≠ dump.getD idx 0 := by simpa using hne
      rw [if_neg hb]
      simp
    | succ i2 =>
      have hb : b = dump.getD idx 0 := by simpa using hpre 0 (Nat.succ_pos i2)
      rw [if_pos hb]
      have harith : idx + 1 + i2 = idx + (i2 + 1) := by omega
      have hrec := ih (idx + 1) i2 (by simp only [List.length_cons] at hi; omega)
        (by simp only [List.length_cons] at hlen ⊢; omega)
        (by rw [harith]; simpa using hne)
        (fun j hj => by
          have harith2 : idx + 1 + j = idx + (j + 1) := by omega
          rw [harith2]
          simpa using hpre (j + 1) (by omega))
      rw [hrec, harith]
      simp

theorem compareFrom_idxerr (dump : List Nat) :
    ∀ chunk idx, chunk ≠ [] → dump.length < idx + chunk.length →
      (∀ j, idx + j < dump.length → chunk.getD j 0 = dump.getD (idx + j) 0) →
      compareFrom dump chunk idx = VerifyOutcome.indexError := by
  intro chunk
  induction chunk with
  | nil => intro idx hne; exact absurd rfl hne
  | cons b rest ih =>
    intro idx _ hlen hagree
    by_cases hidx : idx < dump.length
    · rw [compareFrom, if_pos hidx]
      have hb : b = dump.getD idx 0 := by simpa using hagree 0 (by omega)
      rw [if_pos hb]
      have hrest : rest ≠ [] := by
        intro hr
        rw [hr] at hlen
        simp only [List.length_cons, List.length_nil] at hlen
        omega
      apply ih (idx + 1) hrest (by simp only [List.length_cons] at hlen ⊢; omega)
      intro j hj
      have harith : idx + 1 + j = idx + (j + 1) := by omega
      rw [harith]
      simpa using hagree (j + 1) (by omega)
    · rw [compareFrom, if_neg hidx]

theorem recvByte_some {l : List Nat} {x : Nat} {rest : List Nat}
    (h : recvByte l = some (x, rest)) : l = x :: rest := by
  cases l with
  | nil => exact Option.noConfusion h
  | cons a as =>
    simp only [recvByte, Option.some.injEq, Prod.mk.injEq] at h
    rw [h.1, h.2]

theorem verifyWord_dump {w : Nat} {st st2 : VSt} {wi : Nat}
    (h : verifyWord w st wi = some st2) :
    ∃ lo hi rest, st.resp = lo :: hi :: rest ∧
      st2.dump = st.dump ++ [lo, hi] ∧ st2.resp = rest := by
  simp only [verifyWord] at h
  split at h
  · exact Option.noConfusion h
  next extFs ext2 hE =>
    split at h
    · exact Option.noConfusion h
    next lo r1 hrecv1 =>
      split at h
      · exact Option.noConfusion h
      next hi r2 hrecv2 =>
        refine ⟨lo, hi, r2, ?_, ?_, ?_⟩
        · rw [recvByte_some hrecv1, recvByte_some hrecv2]
        · rw [← Option.some.inj h]
        · rw [← Option.some.inj h]

theorem verifyFold_dump {w : Nat} :
    ∀ (l : List Nat) (st st2 : VSt),
      List.foldlM (verifyWord w) st l = some st2 →
      st2.dump = st.dump ++ st.resp.take (2 * l.length) ∧
      st2.resp = st.resp.drop (2 * l.length) ∧
      2 * l.length ≤ st.resp.length := by
  intro l
  induction l with
  | nil =>
    intro st st2 h
    simp only [List.foldlM_nil] at h
    rw [← Option.some.inj h]
    simp
  | cons x xs ih =>
    intro st st2 h
    rw [List.foldlM_cons] at h
    cases hw : verifyWord w st x with
    | none => rw [hw] at h; exact Option.noConfusion h
    | some stm =>
      have h2 : List.foldlM (verifyWord w) stm xs = some st2 := by
        rw [hw] at h; exact h
      obtain ⟨lo, hi, rest, hresp, hdump, hrespm⟩ := verifyWord_dump hw
      obtain ⟨ihd, ihr, ihlen⟩ := ih stm st2 h2
      have h2n : 2 * (x :: xs).length = 2 * xs.length + 1 + 1 := by
        simp only [List.length_cons]; omega
      rw [hresp, h2n]
      rw [hrespm] at ihr ihlen
      refine ⟨?_, ?_, ?_⟩
      · rw [ihd, hdump, hrespm, List.take_succ_cons, List.take_succ_cons]
        simp
      · rw [ihr, List.drop_succ_cons, List.drop_succ_cons]
      · simp only [List.length_cons]; omega

theorem verifyRead_dump {n s : Nat} {resp : List Nat} {st : VSt}
    (h : verifyRead n s resp = some st) :
    st.dump = resp.take (2 * (n / 2)) ∧ st.resp = resp.drop (2 * (n / 2)) ∧
    2 * (n / 2) ≤ resp.length := by
  have := verifyFold_dump (List.range (n / 2)) ⟨none, [], [], resp⟩ st h
  simpa [List.length_range] using this

/-- Claim C6: whenever the read-back dump covers the source chunk (even
chunk length; the odd case is claim C10), `verify` reports `matched` if no
index diverges, and otherwise reports the first divergent index together
with the expected (source) and actual (dump) byte, never a later mismatch.
The dump bytes are exactly the received bytes, so the statement is phrased
over the response oracle `resp`. -/
theorem c6_verify_first_mismatch {n s : Nat} {chunk resp : List Nat}
    {fs : List Frame} {out : VerifyOutcome} {rest : List Nat}
    (hn : n = chunk.length)
    (hcover : chunk.length ≤ 2 * (n / 2))
    (hrun : verifyFlash n s chunk resp = some (fs, out, rest)) :
    ((∀ i, i < chunk.length → chunk.getD i 0 = resp.getD i 0) →
      out = VerifyOutcome.matched) ∧
    (∀ i, i < chunk.length → chunk.getD i 0 ≠ resp.getD i 0 →
      (∀ j, j < i → chunk.getD j 0 = resp.getD j 0) →
      out = VerifyOutcome.mismatch i (chunk.getD i 0) (resp.getD i 0)) := by
  unfold verifyFlash at hrun
  split at hrun
  · exact Option.noConfusion hrun
  next st hread =>
    simp only [Option.some.injEq, Prod.mk.injEq] at hrun
    obtain ⟨hfs, hout, hrest⟩ := hrun
    obtain ⟨hdump, hresp2, hlen⟩ := verifyRead_dump hread
    have hdlen : st.dump.length = 2 * (n / 2) := by
      rw [hdump, List.length_take]; omega
    have hgd : ∀ i, i < chunk.length → st.dump.getD i 0 = resp.getD i 0 := by
      intro i hi
      rw [hdump]
      exact getD_take resp (2 * (n / 2)) i (by omega)
    constructor
    · intro hall
      rw [← hout]
      apply compareFrom_matched st.dump chunk 0 (by omega)
      intro i hi
      rw [Nat.zero_add, hgd i hi]
      exact hall i hi
    · intro i hi hne hpre
      rw [← hout]
      have hrec := compareFrom_mismatch st.dump chunk 0 i hi (by omega)
        (by rw [Nat.zero_add, hgd i hi]; exact hne)
        (fun j hj => by rw [Nat.zero_add, hgd j (by omega)]; exact hpre j hj)
      rw [hrec, Nat.zero_add, hgd i hi]

/-- Claim C6 witness: chunk `01 02` read back as `01 02` verifies as a
match. -/
theorem c6_witness :
    (2 = ([1, 2] : List Nat).length) ∧
    (([1, 2] : List Nat).length ≤ 2 * (2 / 2)) ∧
    VerifyOutcome.matched = VerifyOutcome.matched :=
  ⟨rfl, by decide,
    (@c6_verify_first_mismatch 2 0 [1, 2] [1, 2]
      [[0x4D, 0x00, 0x00, 0x00], [0x20, 0x00, 0x00], [0x28, 0x00, 0x00]]
      VerifyOutcome.matched [] rfl (by decide) (by decide)).1 (by decide)⟩

/-- Claim C10: for a chunk of odd length `n`, the read loop of `verify`
dumps only `2 * (n / 2) = n - 1` bytes, so when the first `n - 1` bytes all
match, the comparison indexes one byte past the dump and raises IndexError
instead of returning a match or mismatch. -/
theorem c10_odd_chunk_index_error {n s : Nat} {chunk resp : List Nat}
    {fs : List Frame} {out : VerifyOutcome} {rest : List Nat}
    (hn : chunk.length = n) (hodd : n % 2 = 1)
    (hrun : verifyFlash n s chunk resp = some (fs, out, rest))
    (hmatch : ∀ i, i < n - 1 → chunk.getD i 0 = resp.getD i 0) :
    out = VerifyOutcome.indexError := by
  unfold verifyFlash at hrun
  split at hrun
  · exact Option.noConfusion hrun
  next st hread =>
    simp only [Option.some.injEq, Prod.mk.injEq] at hrun
    obtain ⟨_, hout, _⟩ := hrun
    obtain ⟨hdump, _, hlen⟩ := verifyRead_dump hread
    have hdlen : st.dump.length = 2 * (n / 2) := by
      rw [hdump, List.length_take]; omega
    rw [← hout]
    apply compareFrom_idxerr st.dump chunk 0
    · intro hc
      rw [hc] at hn
      simp only [List.length_nil] at hn
      omega
    · omega
    · intro j hj
      rw [Nat.zero_add] at hj ⊢
      rw [hdump, getD_take resp (2 * (n / 2)) j (by omega)]
      exact hmatch j (by omega)

/-- Claim C10 witness: a one-byte chunk; the read loop dumps zero bytes and
the comparison raises IndexError immediately. -/
theorem c10_witness :
    (([5] : List Nat).length = 1) ∧ (1 % 2 = 1) ∧
    VerifyOutcome.indexError = VerifyOutcome.indexError :=
  ⟨rfl, rfl,
    @c10_odd_chunk_index_error 1 0 [5] [] [] VerifyOutcome.indexError []
      rfl rfl (by decide) (fun i hi => absurd hi (by omega))⟩

/-- A write loop that raises nothing performs exactly the given segment
writes, in order. -/
theorem writeSegsP_ok_writes (pagesize : Nat) (busy : BusyMode) (vf : Bool) :
    ∀ (segs : List (Nat × List Nat)) (st st2 : PStE),
      writeSegsP pagesize busy vf segs st = (st2, none) →
      st2.writes = st.writes ++ segs := by
  intro segs
  induction segs with
  | nil =>
    intro st st2 h
    simp only [writeSegsP] at h
    rw [← (Prod.mk.injEq st none st2 none).mp h |>.1]
    simp
  | cons seg rest ih =>
    intro st st2 h
    rw [writeSegsP] at h
    split at h
    next evs ext2 resp2 heq =>
      rw [ih _ st2 h]
      simp
    next evs ext2 resp2 e heq =>
      exact absurd (congrArg Prod.snd h) (by simp)

/-- A write loop that raises performs a prefix of the given segment writes
(the raising call included). -/
theorem writeSegsP_err_writes (pagesize : Nat) (busy : BusyMode) (vf : Bool) :
    ∀ (segs : List (Nat × List Nat)) (st st2 : PStE) (e : PyErr),
      writeSegsP pagesize busy vf segs st = (st2, some e) →
      ∃ k, k ≤ segs.length ∧ st2.writes = st.writes ++ segs.take k := by
  intro segs
  induction segs with
  | nil =>
    intro st st2 e h
    exact absurd (congrArg Prod.snd h) (by simp [writeSegsP])
  | cons seg rest ih =>
    intro st st2 e h
    rw [writeSegsP] at h
    split at h
    next evs ext2 resp2 heq =>
      obtain ⟨k, hk, hw⟩ := ih _ st2 e h
      refine ⟨k + 1, by simp; omega, ?_⟩
      rw [hw, List.take_succ_cons]
      simp
    next evs ext2 resp2 e2 heq =>
      refine ⟨1, by simp, ?_⟩
      rw [← (Prod.mk.injEq _ _ st2 (some e)).mp h |>.1]
      simp [List.take_succ_cons]

/-- Claim C8 counterexample: a *successfully decoded* IntelHex image with
one segment at byte address `0x2000000` (= 2^25).  `program_page` transmits
its byte-load frames, then `bytes([self.extended_addr])` at line 173 raises
ValueError (`0x2000000 / 2 >>> 16 = 0x200 > 255`); the `except` at line 276
catches it and the raw fallback runs: the file is rewritten as one raw
segment at the configured start address — refuting the claim that a
successful HEX decode never triggers the raw fallback. -/
theorem c8_fallback_after_successful_decode :
    (processRunP 2 9000 BusyMode.rdybsy false 64
        (Except.ok [(0x2000000, [1, 2])]) [9, 9, 9] 0 [0, 0]).map
      (fun st => st.writes) =
      Except.ok [(0x2000000, [1, 2]), (0, [9, 9, 9])] := by
  decide

/-- Claim C8 amended: on a decode failure the session writes exactly one
raw segment at the configured start address; on a successful decode the
session either writes exactly the decoded parts (when the hex-path writes
raise nothing), or — because the `except` clause also spans the write
calls — a ValueError raised during those writes is caught and the raw
fallback appends the single raw segment after the attempted prefix of the
decoded parts. -/
theorem c8_fallback_spans_write_calls (pagesize eraseDelay : Nat)
    (busy : BusyMode) (vf : Bool) (flashSize : Nat) (raw : List Nat)
    (startAddr : Nat) (resp : List Nat) :
    (∀ (e : Unit) (st2 : PStE),
      processRunP pagesize eraseDelay busy vf flashSize (Except.error e) raw
          startAddr resp = Except.ok st2 →
      st2.writes = [(startAddr, raw)]) ∧
    (∀ (parts : List (Nat × List Nat)) (st2 : PStE),
      processRunP pagesize eraseDelay busy vf flashSize (Except.ok parts) raw
          startAddr resp = Except.ok st2 →
      ((writeSegsP pagesize busy vf parts (processInit eraseDelay resp)).2 = none ∧
        st2.writes = parts) ∨
      ((writeSegsP pagesize busy vf parts (processInit eraseDelay resp)).2 =
          some PyErr.valueError ∧
        ∃ k, k ≤ parts.length ∧
          st2.writes = parts.take k ++ [(startAddr, raw)])) := by
  constructor
  · intro e st2 h
    simp only [processRunP, rawFallback] at h
    split at h
    next st3 heq =>
      rw [← Except.ok.inj h]
      have := writeSegsP_ok_writes pagesize busy vf [(startAddr, raw)]
        (processInit eraseDelay resp) st3 heq
      rw [this]
      rfl
    next e2 heq => exact Except.noConfusion h
  · intro parts st2 h
    simp only [processRunP] at h
    split at h
    next st heq =>
      left
      refine ⟨by rw [heq], ?_⟩
      rw [← Except.ok.inj h]
      have := writeSegsP_ok_writes pagesize busy vf parts
        (processInit eraseDelay resp) st heq
      rw [this]
      rfl
    next st e heq =>
      right
      split at h
      next hval =>
        subst hval
        refine ⟨by rw [heq], ?_⟩
        obtain ⟨k, hk, hw⟩ := writeSegsP_err_writes pagesize busy vf parts
          (processInit eraseDelay resp) st PyErr.valueError heq
        simp only [rawFallback] at h
        split at h
        next st3 heq2 =>
          rw [← Except.ok.inj h]
          have := writeSegsP_ok_writes pagesize busy vf [(startAddr, raw)] st st3 heq2
          rw [this, hw]
          exact ⟨k, hk, by simp [processInit]⟩
        next e2 heq2 => exact Except.noConfusion h
      next hval => exact Except.noConfusion h

/-- Claim C8 witness: a decode failure writes the file as exactly one raw
segment at the configured start address 0. -/
theorem c8_witness :
    processRunP 2 1000 BusyMode.rdybsy false 64 (Except.error ()) [7] 0 [0] =
      Except.ok ⟨[Ev.resetHigh, Ev.resetLow, Ev.resetLow,
        Ev.tx [0xAC, 0x53, 0x00, 0x00], Ev.sleepMs 500,
        Ev.tx [0xAC, 0x80, 0x00, 0x00], Ev.sleepMs 1000, Ev.resetHigh,
        Ev.resetLow, Ev.tx [0xAC, 0x53, 0x00, 0x00], Ev.sleepMs 500,
        Ev.tx [0x40, 0x00, 0x00, 0x07], Ev.tx [0x48, 0x00, 0x00, 0xFF],
        Ev.tx [0x4D, 0x00, 0x00, 0x00], Ev.tx [0x4C, 0x00, 0x00, 0x00],
        Ev.tx [0xF0, 0x00, 0x00, 0x00], Ev.resetHigh],
        some 0, [], [(0, [7])]⟩ ∧
    (⟨[Ev.resetHigh, Ev.resetLow, Ev.resetLow,
        Ev.tx [0xAC, 0x53, 0x00, 0x00], Ev.sleepMs 500,
        Ev.tx [0xAC, 0x80, 0x00, 0x00], Ev.sleepMs 1000, Ev.resetHigh,
        Ev.resetLow, Ev.tx [0xAC, 0x53, 0x00, 0x00], Ev.sleepMs 500,
        Ev.tx [0x40, 0x00, 0x00, 0x07], Ev.tx [0x48, 0x00, 0x00, 0xFF],
        Ev.tx [0x4D, 0x00, 0x00, 0x00], Ev.tx [0x4C, 0x00, 0x00, 0x00],
        Ev.tx [0xF0, 0x00, 0x00, 0x00], Ev.resetHigh],
        some 0, [], [(0, [7])]⟩ : PStE).writes = [(0, [7])] :=
  ⟨by decide,
    (c8_fallback_spans_write_calls 2 1000 BusyMode.rdybsy false 64 [7] 0 [0]).1
      () _ (by decide)⟩
